import Mathlib

/-!
Verification of the career-advisor scoring engine.

The development shallowly embeds the data model (`Competency`, `Profile`,
`Career`, `CareerAdvisor`, `Recommendation`) and the scoring algorithm
(`analyze_profile`) of the repository.  Python dictionaries are modelled as
insertion-ordered association lists (`insertAL` overwrites in place and
appends fresh keys at the end, as CPython dicts do), floating point scores
are modelled as rationals, `str.lower()` is modelled as `strLower`, and
`round(x, 2)` is modelled as `round2` (scale by 100, floor the half-shifted
value, scale back).  `list.sort(key=..., reverse=True)` is modelled by the
stable descending insertion sort `sortDesc`.
-/

/-- Model of Python `str.lower()`: lowercase every character. -/
def strLower (s : String) : String := ⟨s.data.map Char.toLower⟩

/-- Insertion-ordered association-list lookup (model of `dict.__getitem__` /
`in`): the first pair whose key equals the query is returned. -/
def lookupAL {α : Type} : List (String × α) → String → Option α
  | [], _ => Option.none
  | (k, v) :: rest, key => if k = key then Option.some v else lookupAL rest key

/-- Insertion-ordered association-list insertion (model of `dict.__setitem__`):
an existing key keeps its position and gets the new value, a fresh key is
appended at the end. -/
def insertAL {α : Type} : List (String × α) → String → α → List (String × α)
  | [], key, v => [(key, v)]
  | (k, w) :: rest, key, v =>
      if k = key then (key, v) :: rest else (k, w) :: insertAL rest key v

/-- `models.Competency`: a named skill with a kind tag and a score. -/
structure Competency where
  name : String
  kind : String
  score : ℚ
deriving DecidableEq, Repr

deriving instance DecidableEq for Except

/-- `models.Competency.__post_init__`: the kind is lowercased, then must be
`"tecnica"` or `"comportamental"`, and the score must lie in `[0, 10]`;
otherwise construction raises `ValueError`. -/
def mkCompetency (name kind : String) (score : ℚ) : Except String Competency :=
  if ¬ (strLower kind = "tecnica" ∨ strLower kind = "comportamental") then
    Except.error "Tipo de competencia deve ser tecnica ou comportamental."
  else if ¬ (0 ≤ score ∧ score ≤ 10) then
    Except.error "A nota da competencia deve estar entre 0 e 10."
  else
    Except.ok { name := name, kind := strLower kind, score := score }

/-- `models.Profile`: a name plus one bucket of technical and one bucket of
behavioral competencies, keyed by lowercased competency name. -/
structure Profile where
  name : String
  technical_skills : List (String × Competency)
  behavioral_skills : List (String × Competency)
deriving DecidableEq, Repr

/-- `Profile(name)` with the default empty buckets. -/
def Profile.empty (name : String) : Profile :=
  { name := name, technical_skills := [], behavioral_skills := [] }

/-- `models.Profile.add_competency`: inserts the competency, keyed by its
lowercased name, into the technical bucket when its kind is `"tecnica"` and
into the behavioral bucket otherwise. -/
def Profile.add_competency (p : Profile) (c : Competency) : Profile :=
  if c.kind = "tecnica" then
    { p with technical_skills := insertAL p.technical_skills (strLower c.name) c }
  else
    { p with behavioral_skills := insertAL p.behavioral_skills (strLower c.name) c }

/-- Adding a list of competencies in order (repeated `add_competency` calls). -/
def Profile.addAll (p : Profile) (cs : List Competency) : Profile :=
  cs.foldl Profile.add_competency p

/-- `models.Profile.get_score`: lowercases the queried name, looks it up in
the technical bucket first, then the behavioral bucket, and returns `0.0`
when both lookups miss. -/
def Profile.get_score (p : Profile) (name : String) : ℚ :=
  match lookupAL p.technical_skills (strLower name) with
  | Option.some c => c.score
  | Option.none =>
    match lookupAL p.behavioral_skills (strLower name) with
    | Option.some c => c.score
    | Option.none => 0

/-- `models.Career`: a name plus an insertion-ordered requirements mapping
`competency name ↦ (kind, required score)`. -/
structure Career where
  name : String
  required_competencies : List (String × String × ℚ)
deriving DecidableEq, Repr

/-- `models.Career.required_items`: yields `(name, kind, required score)`
triples in the requirements mapping's insertion order. -/
def Career.required_items (c : Career) : List (String × String × ℚ) :=
  c.required_competencies

/-- The career has some requirement whose name equals `n` case-insensitively
(this is the matching relation `analyze_profile` effectively uses, since
`get_score` lowercases the requirement name it is passed). -/
def Career.requiresName (c : Career) (n : String) : Prop :=
  ∃ it ∈ c.required_competencies, strLower it.1 = strLower n

instance (c : Career) (n : String) : Decidable (c.requiresName n) := by
  unfold Career.requiresName; infer_instance

/-- All requirements of the career are met by the profile (profile score at
least the required score, name compared the way `get_score` compares it). -/
def Career.allMet (p : Profile) (c : Career) : Prop :=
  ∀ it ∈ c.required_competencies, it.2.2 ≤ p.get_score it.1

instance (p : Profile) (c : Career) : Decidable (c.allMet p) := by
  unfold Career.allMet; infer_instance

/-- `advisor.Recommendation`: the result record built per career. -/
structure Recommendation where
  profile : Profile
  career : Career
  match_percentage : ℚ
  missing_competencies : List (String × ℚ)
deriving DecidableEq, Repr

/-- Model of Python `round(x, 2)`: scale by 100, round to the nearest
integer, scale back. -/
def round2 (q : ℚ) : ℚ := ((⌊q * 100 + 1/2⌋ : ℤ) : ℚ) / 100

/-- One iteration of the requirement loop in
`advisor.CareerAdvisor.analyze_profile`: the accumulator is
`(total, achieved, missing)` and the item is `(comp_name, kind, required)`. -/
def scoreStep (p : Profile) (acc : ℚ × ℚ × List (String × ℚ))
    (item : String × String × ℚ) : ℚ × ℚ × List (String × ℚ) :=
  (acc.1 + item.2.2,
   acc.2.1 + min (p.get_score item.1) item.2.2,
   if p.get_score item.1 < item.2.2 then
     insertAL acc.2.2 item.1 (item.2.2 - p.get_score item.1)
   else acc.2.2)

/-- The requirement loop of `analyze_profile` for one career: returns the
final `(total, achieved, missing)`. -/
def score_career (p : Profile) (c : Career) : ℚ × ℚ × List (String × ℚ) :=
  (Career.required_items c).foldl (scoreStep p) (0, 0, [])

/-- The `match_percentage` computed by `analyze_profile` for one career:
`round(achieved / total * 100, 2)` when `total` is nonzero, `round(0, 2)`
otherwise. -/
def matchPct (p : Profile) (c : Career) : ℚ :=
  round2 (if (score_career p c).1 ≠ 0 then
            (score_career p c).2.1 / (score_career p c).1 * 100
          else 0)

/-- The `Recommendation` that `analyze_profile` appends for one career. -/
def mkRecommendation (p : Profile) (c : Career) : Recommendation :=
  { profile := p, career := c, match_percentage := matchPct p c,
    missing_competencies := (score_career p c).2.2 }

/-- Stable descending insertion: the new element goes in front of the first
element whose `match_percentage` is at most its own, so among equal
percentages an element inserted later than the rest of the list (i.e. one
that originally came first) ends up first. -/
def insertDesc (r : Recommendation) : List Recommendation → List Recommendation
  | [] => [r]
  | y :: ys =>
      if y.match_percentage ≤ r.match_percentage then r :: y :: ys
      else y :: insertDesc r ys

/-- Model of `results.sort(key=lambda rec: rec.match_percentage, reverse=True)`:
a stable sort by `match_percentage` descending. -/
def sortDesc : List Recommendation → List Recommendation
  | [] => []
  | x :: xs => insertDesc x (sortDesc xs)

/-- `advisor.CareerAdvisor`: registry of profiles and careers, keyed by
lowercased name. -/
structure CareerAdvisor where
  profiles : List (String × Profile)
  careers : List (String × Career)
deriving DecidableEq, Repr

/-- `CareerAdvisor()`. -/
def CareerAdvisor.empty : CareerAdvisor := { profiles := [], careers := [] }

/-- `advisor.CareerAdvisor.add_profile`. -/
def CareerAdvisor.add_profile (adv : CareerAdvisor) (p : Profile) : CareerAdvisor :=
  { adv with profiles := insertAL adv.profiles (strLower p.name) p }

/-- `advisor.CareerAdvisor.add_career`. -/
def CareerAdvisor.add_career (adv : CareerAdvisor) (c : Career) : CareerAdvisor :=
  { adv with careers := insertAL adv.careers (strLower c.name) c }

/-- The `results` list of `analyze_profile` just before the final sort: one
recommendation per career, in the registry's career iteration (= insertion)
order. -/
def CareerAdvisor.results_unsorted (adv : CareerAdvisor) (p : Profile) :
    List Recommendation :=
  adv.careers.map (fun kv => mkRecommendation p kv.2)

/-- `advisor.CareerAdvisor.analyze_profile`: build one recommendation per
career, then sort descending by `match_percentage` (stable). -/
def CareerAdvisor.analyze_profile (adv : CareerAdvisor) (p : Profile) :
    List Recommendation :=
  sortDesc (adv.results_unsorted p)

/-- One iteration of the career loop of `analyze_profile` with the mutable
state (the advisor, the profile argument, the `results` list) threaded
explicitly: the loop body only reads the advisor and the profile and appends
to `results`. -/
def analyzeStep (st : CareerAdvisor × Profile × List Recommendation)
    (kv : String × Career) : CareerAdvisor × Profile × List Recommendation :=
  (st.1, st.2.1, st.2.2 ++ [mkRecommendation st.2.1 kv.2])

/-- `analyze_profile` as a state transformer: threads the advisor and the
profile through the career loop and returns them together with the sorted
results, exposing that the method mutates neither. -/
def CareerAdvisor.analyze_profileS (adv : CareerAdvisor) (p : Profile) :
    CareerAdvisor × Profile × List Recommendation :=
  let fin := adv.careers.foldl analyzeStep (adv, p, [])
  (fin.1, fin.2.1, sortDesc fin.2.2)

/-! ### Concrete inputs used by counterexamples and witnesses -/

/-- A profile with a single technical competency `python` at score `10`. -/
def profileTen : Profile :=
  { name := "x",
    technical_skills := [("python", { name := "python", kind := "tecnica", score := 10 })],
    behavioral_skills := [] }

/-- A career with an empty requirements mapping. -/
def careerEmptyReq : Career := { name := "a", required_competencies := [] }

/-- A career requiring `python` at `10.0001`: a valid profile can reach an
unrounded match of `99.999...%`, which rounds to exactly `100.00`. -/
def careerNearMiss : Career :=
  { name := "b", required_competencies := [("python", "tecnica", 100001/10000)] }

/-- Registry holding `careerEmptyReq` then `careerNearMiss`. -/
def advisorC1 : CareerAdvisor :=
  (CareerAdvisor.empty.add_career careerEmptyReq).add_career careerNearMiss

/-- The Marina profile of the spec scenario: technical `python` 7.5 and
`estatistica aplicada` 6, behavioral `comunicacao` 6.5. -/
def marinaProfile : Profile :=
  (((Profile.empty "Marina").add_competency
      { name := "python", kind := "tecnica", score := 15/2 }).add_competency
      { name := "estatistica aplicada", kind := "tecnica", score := 6 }).add_competency
      { name := "comunicacao", kind := "comportamental", score := 13/2 }

/-- The `Cientista de Dados` career exactly as seeded by
`build_default_advisor` (names, kinds and required scores from the catalog,
in the catalog's listing order). -/
def cientistaDeDados : Career :=
  { name := "Cientista de Dados",
    required_competencies :=
      [("python", "tecnica", 9),
       ("estatistica aplicada", "tecnica", 8),
       ("machine learning", "tecnica", 9),
       ("data visualization", "tecnica", 7),
       ("pensamento critico", "comportamental", 8),
       ("comunicacao", "comportamental", 8),
       ("orientacao a dados", "comportamental", 7)] }

/-- Registry holding just the `Cientista de Dados` career. -/
def advisorC8 : CareerAdvisor := CareerAdvisor.empty.add_career cientistaDeDados

/-- Same careers as `advisorC8` but a different profiles mapping. -/
def advisorC8b : CareerAdvisor :=
  { profiles := [("marina", marinaProfile)], careers := advisorC8.careers }

/-- A valid technical competency named `skill` with score 5. -/
def compTecSkill : Competency := { name := "skill", kind := "tecnica", score := 5 }

/-- A valid behavioral competency named `skill` with score 9. -/
def compBehSkill : Competency := { name := "skill", kind := "comportamental", score := 9 }

/-- Profile for the monotonicity witness: technical `python` at 5. -/
def profileMono : Profile :=
  { name := "m",
    technical_skills := [("python", { name := "python", kind := "tecnica", score := 5 })],
    behavioral_skills := [] }

/-- `profileMono` with `python` raised to 7, all else unchanged. -/
def profileMono' : Profile :=
  { name := "m",
    technical_skills := [("python", { name := "python", kind := "tecnica", score := 7 })],
    behavioral_skills := [] }

/-- A career requiring `python` at 9 (for the monotonicity witness). -/
def careerReqPython : Career :=
  { name := "c", required_competencies := [("python", "tecnica", 9)] }

/-- A career with no `python` requirement (for the monotonicity witness). -/
def careerNoPython : Career :=
  { name := "d", required_competencies := [("sql", "tecnica", 8)] }

/-- A career whose single requirement is tagged `tecnica`. -/
def careerKindA : Career :=
  { name := "x", required_competencies := [("python", "tecnica", 5)] }

/-- The same career with the requirement's kind tag replaced. -/
def careerKindB : Career :=
  { name := "x", required_competencies := [("python", "qualquer", 5)] }

/-! ### Association-list lemmas -/

theorem lookupAL_insertAL_self {α : Type} (l : List (String × α)) (k : String) (v : α) :
    lookupAL (insertAL l k v) k = Option.some v := by
  induction l with
  | nil => simp [insertAL, lookupAL]
  | cons kv rest ih =>
    by_cases h : kv.1 = k
    · simp [insertAL, lookupAL, h]
    · simp only [insertAL, lookupAL, h, if_false]
      simpa [lookupAL, h] using ih

theorem lookupAL_insertAL_ne {α : Type} (l : List (String × α)) (k k' : String) (v : α)
    (h : k' ≠ k) : lookupAL (insertAL l k v) k' = lookupAL l k' := by
  have hkk : ¬ (k = k') := fun hx => h hx.symm
  induction l with
  | nil => simp [insertAL, lookupAL, hkk]
  | cons kv rest ih =>
    obtain ⟨a, b⟩ := kv
    by_cases hk : a = k
    · subst hk
      simp [insertAL, lookupAL, hkk]
    · simp [insertAL, lookupAL, hk, ih]

theorem lookupAL_mem {α : Type} (l : List (String × α)) (k : String) (v : α)
    (h : lookupAL l k = Option.some v) : (k, v) ∈ l := by
  induction l with
  | nil => simp [lookupAL] at h
  | cons kv rest ih =>
    obtain ⟨a, b⟩ := kv
    by_cases hk : a = k
    · rw [lookupAL, if_pos hk] at h
      have hv : b = v := Option.some.inj h
      rw [hk, hv]
      exact List.mem_cons_self _ _
    · rw [lookupAL, if_neg hk] at h
      exact List.mem_cons_of_mem _ (ih h)

/-! ### `get_score` lemmas -/

theorem get_score_congr (p : Profile) (q₁ q₂ : String)
    (h : strLower q₁ = strLower q₂) : p.get_score q₁ = p.get_score q₂ := by
  simp only [Profile.get_score, h]

theorem get_score_nonneg (p : Profile)
    (ht : ∀ kv ∈ p.technical_skills, 0 ≤ kv.2.score)
    (hb : ∀ kv ∈ p.behavioral_skills, 0 ≤ kv.2.score)
    (q : String) : 0 ≤ p.get_score q := by
  unfold Profile.get_score
  cases hl : lookupAL p.technical_skills (strLower q) with
  | some c => exact ht _ (lookupAL_mem _ _ _ hl)
  | none =>
    cases hl' : lookupAL p.behavioral_skills (strLower q) with
    | some c => exact hb _ (lookupAL_mem _ _ _ hl')
    | none => simp

theorem get_score_add_other (p : Profile) (c : Competency) (q : String)
    (h : strLower c.name ≠ strLower q) :
    (p.add_competency c).get_score q = p.get_score q := by
  unfold Profile.add_competency Profile.get_score
  by_cases hk : c.kind = "tecnica" <;>
    simp [hk, lookupAL_insertAL_ne _ _ _ _ (fun hx => h hx.symm)]

/-! ### Requirement-loop lemmas -/

theorem foldl_scoreStep_fst (p : Profile) (items : List (String × String × ℚ)) :
    ∀ (t a : ℚ) (m : List (String × ℚ)),
      (items.foldl (scoreStep p) (t, a, m)).1 =
        t + (items.map (fun it => it.2.2)).sum := by
  induction items with
  | nil => intro t a m; simp
  | cons it rest ih =>
    intro t a m
    simp only [List.foldl_cons, scoreStep, List.map_cons, List.sum_cons]
    rw [ih]
    ring

theorem foldl_scoreStep_snd (p : Profile) (items : List (String × String × ℚ)) :
    ∀ (t a : ℚ) (m : List (String × ℚ)),
      (items.foldl (scoreStep p) (t, a, m)).2.1 =
        a + (items.map (fun it => min (p.get_score it.1) it.2.2)).sum := by
  induction items with
  | nil => intro t a m; simp
  | cons it rest ih =>
    intro t a m
    simp only [List.foldl_cons, scoreStep, List.map_cons, List.sum_cons]
    rw [ih]
    ring

theorem score_career_fst (p : Profile) (c : Career) :
    (score_career p c).1 = (c.required_competencies.map (fun it => it.2.2)).sum := by
  unfold score_career Career.required_items
  rw [foldl_scoreStep_fst]
  ring

theorem score_career_snd (p : Profile) (c : Career) :
    (score_career p c).2.1 =
      (c.required_competencies.map (fun it => min (p.get_score it.1) it.2.2)).sum := by
  unfold score_career Career.required_items
  rw [foldl_scoreStep_snd]
  ring

theorem achieved_nonneg (p : Profile) (c : Career)
    (hgs : ∀ q, 0 ≤ p.get_score q)
    (hpos : ∀ it ∈ c.required_competencies, 0 ≤ it.2.2) :
    0 ≤ (score_career p c).2.1 := by
  rw [score_career_snd]
  refine List.sum_nonneg ?_
  intro x hx
  obtain ⟨it, hit, rfl⟩ := List.mem_map.mp hx
  exact le_min (hgs it.1) (hpos it hit)

theorem achieved_le_total (p : Profile) (c : Career) :
    (score_career p c).2.1 ≤ (score_career p c).1 := by
  rw [score_career_snd, score_career_fst]
  exact List.sum_le_sum fun it _ => min_le_right _ _

theorem total_nonneg (p : Profile) (c : Career)
    (hpos : ∀ it ∈ c.required_competencies, 0 ≤ it.2.2) :
    0 ≤ (score_career p c).1 := by
  rw [score_career_fst]
  refine List.sum_nonneg ?_
  intro x hx
  obtain ⟨it, hit, rfl⟩ := List.mem_map.mp hx
  exact hpos it hit

theorem total_pos (p : Profile) (c : Career)
    (hpos : ∀ it ∈ c.required_competencies, 0 < it.2.2)
    (hne : c.required_competencies ≠ []) :
    0 < (score_career p c).1 := by
  rw [score_career_fst]
  cases hc : c.required_competencies with
  | nil => exact absurd hc hne
  | cons it rest =>
    simp only [List.map_cons, List.sum_cons]
    have h1 : 0 < it.2.2 := hpos it (by simp [hc])
    have h2 : 0 ≤ (rest.map (fun it => it.2.2)).sum := by
      refine List.sum_nonneg ?_
      intro x hx
      obtain ⟨y, hy, rfl⟩ := List.mem_map.mp hx
      exact le_of_lt (hpos y (by simp [hc, hy]))
    linarith

theorem achieved_eq_total_iff (p : Profile) (c : Career) :
    (score_career p c).2.1 = (score_career p c).1 ↔ c.allMet p := by
  rw [score_career_snd, score_career_fst]
  unfold Career.allMet
  induction c.required_competencies with
  | nil => simp
  | cons it rest ih =>
    simp only [List.map_cons, List.sum_cons, List.mem_cons]
    constructor
    · intro h
      have h1 : min (p.get_score it.1) it.2.2 ≤ it.2.2 := min_le_right _ _
      have h2 : (rest.map (fun j => min (p.get_score j.1) j.2.2)).sum ≤
          (rest.map (fun j => j.2.2)).sum :=
        List.sum_le_sum fun j _ => min_le_right _ _
      have hm : min (p.get_score it.1) it.2.2 = it.2.2 := by linarith
      have hs : (rest.map (fun j => min (p.get_score j.1) j.2.2)).sum =
          (rest.map (fun j => j.2.2)).sum := by linarith
      intro j hj
      rcases hj with rfl | hj
      · exact min_eq_right_iff.mp hm
      · exact ih.mp hs j hj
    · intro h
      rw [min_eq_right (h it (Or.inl rfl)), ih.mpr fun j hj => h j (Or.inr hj)]

/-! ### Rounding lemmas -/

theorem round2_mono {a b : ℚ} (h : a ≤ b) : round2 a ≤ round2 b := by
  unfold round2
  have hf : (⌊a * 100 + 1/2⌋ : ℤ) ≤ ⌊b * 100 + 1/2⌋ := Int.floor_mono (by linarith)
  have hf' : ((⌊a * 100 + 1/2⌋ : ℤ) : ℚ) ≤ ((⌊b * 100 + 1/2⌋ : ℤ) : ℚ) := by
    exact_mod_cast hf
  linarith

theorem round2_nonneg {a : ℚ} (h : 0 ≤ a) : 0 ≤ round2 a := by
  unfold round2
  have hf : (0 : ℤ) ≤ ⌊a * 100 + 1/2⌋ := by
    refine Int.le_floor.mpr ?_
    push_cast
    linarith
  have hf' : (0 : ℚ) ≤ ((⌊a * 100 + 1/2⌋ : ℤ) : ℚ) := by exact_mod_cast hf
  linarith

theorem round2_le_100 {a : ℚ} (h : a ≤ 100) : round2 a ≤ 100 := by
  unfold round2
  have hf : (⌊a * 100 + 1/2⌋ : ℤ) ≤ 10000 := by
    have : (⌊a * 100 + 1/2⌋ : ℤ) ≤ ⌊(20001 : ℚ)/2⌋ := Int.floor_mono (by linarith)
    have h2 : (⌊(20001 : ℚ)/2⌋ : ℤ) = 10000 := by norm_num
    omega
  have hf' : ((⌊a * 100 + 1/2⌋ : ℤ) : ℚ) ≤ 10000 := by exact_mod_cast hf
  linarith

theorem round2_hundred : round2 100 = 100 := by norm_num [round2]

theorem round2_zero : round2 0 = 0 := by norm_num [round2]

/-! ### `matchPct` lemmas -/

theorem matchPct_bounds (p : Profile) (c : Career)
    (hgs : ∀ q, 0 ≤ p.get_score q)
    (hpos : ∀ it ∈ c.required_competencies, 0 ≤ it.2.2) :
    0 ≤ matchPct p c ∧ matchPct p c ≤ 100 := by
  unfold matchPct
  by_cases ht : (score_career p c).1 ≠ 0
  · have htpos : 0 < (score_career p c).1 :=
      lt_of_le_of_ne (total_nonneg p c hpos) (Ne.symm ht)
    have ha : 0 ≤ (score_career p c).2.1 := achieved_nonneg p c hgs hpos
    have hat : (score_career p c).2.1 ≤ (score_career p c).1 := achieved_le_total p c
    have hr1 : 0 ≤ (score_career p c).2.1 / (score_career p c).1 * 100 := by positivity
    have hr2 : (score_career p c).2.1 / (score_career p c).1 * 100 ≤ 100 := by
      have : (score_career p c).2.1 / (score_career p c).1 ≤ 1 :=
        (div_le_one htpos).mpr hat
      linarith
    rw [if_pos ht]
    exact ⟨round2_nonneg hr1, round2_le_100 hr2⟩
  · rw [if_neg ht]
    constructor
    · exact round2_nonneg le_rfl
    · calc round2 0 ≤ round2 100 := round2_mono (by norm_num)
        _ = 100 := round2_hundred

theorem matchPct_of_allMet (p : Profile) (c : Career)
    (hpos : ∀ it ∈ c.required_competencies, 0 < it.2.2)
    (hne : c.required_competencies ≠ [])
    (hmet : c.allMet p) : matchPct p c = 100 := by
  unfold matchPct
  have htpos : 0 < (score_career p c).1 := total_pos p c hpos hne
  have heq : (score_career p c).2.1 = (score_career p c).1 :=
    (achieved_eq_total_iff p c).mpr hmet
  rw [if_pos (ne_of_gt htpos), heq, div_self (ne_of_gt htpos), one_mul, round2_hundred]

/-! ### Sorting lemmas -/

theorem mem_insertDesc (x r : Recommendation) (l : List Recommendation) :
    x ∈ insertDesc r l ↔ x = r ∨ x ∈ l := by
  induction l with
  | nil => simp [insertDesc]
  | cons y ys ih =>
    by_cases h : y.match_percentage ≤ r.match_percentage
    · simp [insertDesc, h]
    · simp only [insertDesc, h, if_false, List.mem_cons, ih]
      tauto

theorem mem_sortDesc (x : Recommendation) (l : List Recommendation) :
    x ∈ sortDesc l ↔ x ∈ l := by
  induction l with
  | nil => simp [sortDesc]
  | cons y ys ih =>
    simp only [sortDesc, mem_insertDesc, List.mem_cons, ih]

theorem sorted_insertDesc (r : Recommendation) (l : List Recommendation)
    (h : List.Sorted (fun x y => y.match_percentage ≤ x.match_percentage) l) :
    List.Sorted (fun x y => y.match_percentage ≤ x.match_percentage) (insertDesc r l) := by
  induction l with
  | nil => simp [insertDesc]
  | cons y ys ih =>
    rw [List.sorted_cons] at h
    by_cases hc : y.match_percentage ≤ r.match_percentage
    · rw [insertDesc, if_pos hc, List.sorted_cons]
      refine ⟨?_, List.sorted_cons.mpr h⟩
      intro b hb
      rcases List.mem_cons.mp hb with rfl | hb
      · exact hc
      · exact le_trans (h.1 b hb) hc
    · rw [insertDesc, if_neg hc, List.sorted_cons]
      refine ⟨?_, ih h.2⟩
      intro b hb
      rcases (mem_insertDesc b r ys).mp hb with rfl | hb
      · exact le_of_lt (lt_of_not_le hc)
      · exact h.1 b hb

theorem sorted_sortDesc (l : List Recommendation) :
    List.Sorted (fun x y => y.match_percentage ≤ x.match_percentage) (sortDesc l) := by
  induction l with
  | nil => simp [sortDesc]
  | cons y ys ih => exact sorted_insertDesc y (sortDesc ys) ih

theorem filter_insertDesc_ne (r : Recommendation) (q : ℚ) (l : List Recommendation)
    (hq : r.match_percentage ≠ q) :
    (insertDesc r l).filter (fun x => x.match_percentage = q) =
      l.filter (fun x => x.match_percentage = q) := by
  induction l with
  | nil => simp [insertDesc, List.filter, hq]
  | cons y ys ih =>
    by_cases hc : y.match_percentage ≤ r.match_percentage
    · rw [insertDesc, if_pos hc]
      simp only [List.filter]
      rw [decide_eq_false hq]
    · rw [insertDesc, if_neg hc]
      simp only [List.filter]
      rw [ih]

theorem filter_insertDesc_eq (r : Recommendation) (q : ℚ) (l : List Recommendation)
    (hq : r.match_percentage = q)
    (hs : List.Sorted (fun x y => y.match_percentage ≤ x.match_percentage) l) :
    (insertDesc r l).filter (fun x => x.match_percentage = q) =
      r :: l.filter (fun x => x.match_percentage = q) := by
  induction l with
  | nil => simp [insertDesc, List.filter, hq]
  | cons y ys ih =>
    rw [List.sorted_cons] at hs
    by_cases hc : y.match_percentage ≤ r.match_percentage
    · rw [insertDesc, if_pos hc]
      simp only [List.filter]
      rw [decide_eq_true hq]
    · have hy : y.match_percentage ≠ q := by
        intro hx
        exact hc (by rw [hx, ← hq])
      rw [insertDesc, if_neg hc]
      simp only [List.filter]
      rw [decide_eq_false hy, ih hs.2]

theorem filter_sortDesc (q : ℚ) (l : List Recommendation) :
    (sortDesc l).filter (fun x => x.match_percentage = q) =
      l.filter (fun x => x.match_percentage = q) := by
  induction l with
  | nil => simp [sortDesc]
  | cons y ys ih =>
    rw [sortDesc]
    by_cases hy : y.match_percentage = q
    · rw [filter_insertDesc_eq y q (sortDesc ys) hy (sorted_sortDesc ys), ih]
      simp only [List.filter]
      rw [decide_eq_true hy]
    · rw [filter_insertDesc_ne y q (sortDesc ys) hy, ih]
      simp only [List.filter]
      rw [decide_eq_false hy]

/-! ### Further structural lemmas -/

theorem sortDesc_single (r : Recommendation) : sortDesc [r] = [r] := by
  simp [sortDesc, insertDesc]

theorem sortDesc_pair (r s : Recommendation) :
    sortDesc [r, s] =
      if s.match_percentage ≤ r.match_percentage then [r, s] else [s, r] := by
  by_cases h : s.match_percentage ≤ r.match_percentage
  · simp [sortDesc, insertDesc, h]
  · simp [sortDesc, insertDesc, h]

theorem foldl_analyzeStep (p : Profile) (l : List (String × Career)) :
    ∀ (adv : CareerAdvisor) (acc : List Recommendation),
      l.foldl analyzeStep (adv, p, acc) =
        (adv, p, acc ++ l.map (fun kv => mkRecommendation p kv.2)) := by
  induction l with
  | nil => intro adv acc; simp
  | cons kv rest ih =>
    intro adv acc
    simp only [List.foldl_cons, analyzeStep, List.map_cons]
    rw [ih]
    simp

theorem addAll_get_score_other (cs : List Competency) :
    ∀ (p : Profile) (q : String), (∀ c ∈ cs, strLower c.name ≠ strLower q) →
      (p.addAll cs).get_score q = p.get_score q := by
  induction cs with
  | nil => intro p q _; rfl
  | cons c rest ih =>
    intro p q h
    unfold Profile.addAll
    simp only [List.foldl_cons]
    have := ih (p.add_competency c) q (fun d hd => h d (List.mem_cons_of_mem _ hd))
    unfold Profile.addAll at this
    rw [this]
    exact get_score_add_other p c q (h c (List.mem_cons_self _ _))

theorem get_score_tech_hit (p : Profile) (q : String) (c : Competency)
    (h : lookupAL p.technical_skills (strLower q) = Option.some c) :
    p.get_score q = c.score := by
  unfold Profile.get_score
  rw [h]

/-! ### Concrete evaluation lemmas -/

theorem marinaProfile_eval :
    marinaProfile =
      { name := "Marina",
        technical_skills :=
          [("python", { name := "python", kind := "tecnica", score := 15/2 }),
           ("estatistica aplicada",
             { name := "estatistica aplicada", kind := "tecnica", score := 6 })],
        behavioral_skills :=
          [("comunicacao",
             { name := "comunicacao", kind := "comportamental", score := 13/2 })] } := by
  rfl

theorem score_career_marina_fst : (score_career marinaProfile cientistaDeDados).1 = 56 := by
  rw [score_career_fst]
  norm_num [cientistaDeDados]

theorem score_career_marina_snd : (score_career marinaProfile cientistaDeDados).2.1 = 20 := by
  rw [score_career_snd]
  have h1 : marinaProfile.get_score "python" = 15/2 := by
    rw [marinaProfile_eval]; simp [Profile.get_score, lookupAL, strLower]
  have h2 : marinaProfile.get_score "estatistica aplicada" = 6 := by
    rw [marinaProfile_eval]; simp [Profile.get_score, lookupAL, strLower]
  have h3 : marinaProfile.get_score "machine learning" = 0 := by
    rw [marinaProfile_eval]; simp [Profile.get_score, lookupAL, strLower]
  have h4 : marinaProfile.get_score "data visualization" = 0 := by
    rw [marinaProfile_eval]; simp [Profile.get_score, lookupAL, strLower]
  have h5 : marinaProfile.get_score "pensamento critico" = 0 := by
    rw [marinaProfile_eval]; simp [Profile.get_score, lookupAL, strLower]
  have h6 : marinaProfile.get_score "comunicacao" = 13/2 := by
    rw [marinaProfile_eval]; simp [Profile.get_score, lookupAL, strLower]
  have h7 : marinaProfile.get_score "orientacao a dados" = 0 := by
    rw [marinaProfile_eval]; simp [Profile.get_score, lookupAL, strLower]
  simp only [cientistaDeDados, List.map_cons, List.map_nil, List.sum_cons, List.sum_nil]
  rw [h1, h2, h3, h4, h5, h6, h7]
  norm_num [min_def]

theorem matchPct_marina : matchPct marinaProfile cientistaDeDados = 3571/100 := by
  unfold matchPct
  rw [score_career_marina_fst, score_career_marina_snd]
  rw [if_pos (by norm_num : (56 : ℚ) ≠ 0)]
  norm_num [round2]

theorem advisorC1_careers :
    advisorC1.careers = [("a", careerEmptyReq), ("b", careerNearMiss)] := by
  rfl

/-! ### Claim theorems -/

/-- C1 (amended): for every profile whose stored scores are nonnegative and
every registry whose careers all have positive required scores, each
recommendation produced by `analyze_profile` has `match_percentage` in
`[0, 100]`; the achieved sum equals the required total exactly when every
requirement of that career is met; and for a career with at least one
requirement, meeting every requirement forces `match_percentage = 100`.
(The original two-sided iff on the rounded percentage fails: an
empty-requirements career scores 0 while vacuously meeting everything, and
rounding can produce exactly 100 with a requirement barely unmet.) -/
theorem C1_amended_thm (adv : CareerAdvisor) (p : Profile)
    (hp : ∀ kv ∈ p.technical_skills, 0 ≤ kv.2.score)
    (hb : ∀ kv ∈ p.behavioral_skills, 0 ≤ kv.2.score)
    (hc : ∀ ckv ∈ adv.careers, ∀ it ∈ ckv.2.required_competencies, 0 < it.2.2) :
    ∀ rec ∈ adv.analyze_profile p,
      (0 ≤ rec.match_percentage ∧ rec.match_percentage ≤ 100) ∧
      ((score_career p rec.career).2.1 = (score_career p rec.career).1 ↔
        rec.career.allMet p) ∧
      (rec.career.required_competencies ≠ [] →
        rec.career.allMet p → rec.match_percentage = 100) := by
  intro rec hrec
  have hmem : rec ∈ adv.results_unsorted p := (mem_sortDesc rec _).mp hrec
  obtain ⟨kv, hkv, rfl⟩ := List.mem_map.mp hmem
  have hgs : ∀ q, 0 ≤ p.get_score q := get_score_nonneg p hp hb
  have hcpos := hc kv hkv
  refine ⟨?_, ?_, ?_⟩
  · exact matchPct_bounds p kv.2 hgs (fun it hit => le_of_lt (hcpos it hit))
  · exact achieved_eq_total_iff p kv.2
  · intro hne hmet
    exact matchPct_of_allMet p kv.2 hcpos hne hmet

/-- C1 counterexample: in a registry holding the requirement-free career
`careerEmptyReq` and the career `careerNearMiss` (requiring `python` at
`10.0001`), the profile with `python` at 10 vacuously meets every
requirement of `careerEmptyReq` yet gets `match_percentage = 0` for it, and
gets `match_percentage = 100` for `careerNearMiss` without meeting its
requirement — refuting the claimed iff in both directions. -/
theorem C1_counterexample :
    (advisorC1.analyze_profile profileTen).map
        (fun r => (r.career.name, r.match_percentage)) = [("b", 100), ("a", 0)] ∧
    careerEmptyReq.allMet profileTen ∧
    matchPct profileTen careerEmptyReq = 0 ∧
    matchPct profileTen careerNearMiss = 100 ∧
    ¬ careerNearMiss.allMet profileTen := by
  have hgs : profileTen.get_score "python" = 10 := by
    simp [Profile.get_score, profileTen, lookupAL, strLower]
  have hm_a : matchPct profileTen careerEmptyReq = 0 := by
    unfold matchPct
    norm_num [score_career, Career.required_items, careerEmptyReq, round2]
  have ht_b : (score_career profileTen careerNearMiss).1 = 100001/10000 := by
    rw [score_career_fst]
    norm_num [careerNearMiss]
  have ha_b : (score_career profileTen careerNearMiss).2.1 = 10 := by
    rw [score_career_snd]
    simp only [careerNearMiss, List.map_cons, List.map_nil, List.sum_cons, List.sum_nil]
    rw [hgs]
    norm_num [min_def]
  have hm_b : matchPct profileTen careerNearMiss = 100 := by
    unfold matchPct
    rw [ht_b, ha_b, if_pos (by norm_num : (100001/10000 : ℚ) ≠ 0)]
    norm_num [round2]
  have hcar : advisorC1.careers = [("a", careerEmptyReq), ("b", careerNearMiss)] :=
    advisorC1_careers
  refine ⟨?_, ?_, hm_a, hm_b, ?_⟩
  · unfold CareerAdvisor.analyze_profile CareerAdvisor.results_unsorted
    rw [hcar]
    simp only [List.map_cons, List.map_nil]
    rw [sortDesc_pair]
    simp only [mkRecommendation]
    rw [hm_a, hm_b, if_neg (by norm_num : ¬ ((100 : ℚ) ≤ 0))]
    simp [careerEmptyReq, careerNearMiss]
  · simp [Career.allMet, careerEmptyReq]
  · intro hmet
    have := hmet ("python", "tecnica", 100001/10000) (by simp [careerNearMiss])
    rw [hgs] at this
    norm_num at this

/-- C1 witness: the amended theorem applied to the concrete registry
`advisorC1`, profile `profileTen` and the recommendation that
`analyze_profile` produces for `careerNearMiss`. -/
theorem C1_amended_witness :
    (0 ≤ (mkRecommendation profileTen careerNearMiss).match_percentage ∧
      (mkRecommendation profileTen careerNearMiss).match_percentage ≤ 100) ∧
    ((score_career profileTen careerNearMiss).2.1 =
        (score_career profileTen careerNearMiss).1 ↔
      careerNearMiss.allMet profileTen) := by
  have hmem : mkRecommendation profileTen careerNearMiss ∈
      advisorC1.analyze_profile profileTen := by
    rw [CareerAdvisor.analyze_profile, mem_sortDesc]
    unfold CareerAdvisor.results_unsorted
    rw [advisorC1_careers]
    simp
  have h := C1_amended_thm advisorC1 profileTen
    (by norm_num [profileTen])
    (by norm_num [profileTen])
    (by
      norm_num [advisorC1_careers, careerEmptyReq, careerNearMiss]
      intro a a1 b h1 h2 h3
      rw [h3]
      norm_num)
    (mkRecommendation profileTen careerNearMiss) hmem
  exact ⟨h.1, h.2.1⟩

/-- C2: the output of `analyze_profile` is sorted by `match_percentage` in
non-increasing order, and for every percentage value the recommendations
carrying it appear in exactly the order of the pre-sort per-career list,
which follows the registry's career insertion order (stable sort). -/
theorem C2_thm (adv : CareerAdvisor) (p : Profile) :
    List.Sorted (fun x y => y.match_percentage ≤ x.match_percentage)
      (adv.analyze_profile p) ∧
    ∀ q : ℚ, (adv.analyze_profile p).filter (fun r => r.match_percentage = q) =
      (adv.results_unsorted p).filter (fun r => r.match_percentage = q) :=
  ⟨sorted_sortDesc _, fun q => filter_sortDesc q _⟩

/-- C3: if a profile changes only by raising its score for the single
competency name `n` (every other name reads the same, the new score still in
`[0, 10]`), then for every career with positive required scores the match
percentage computed by `analyze_profile` (that is, `matchPct`) does not
decrease when the career has a requirement named `n`, and is unchanged when
it has none. -/
theorem C3_thm (p p' : Profile) (n : String)
    (hinc : p.get_score n ≤ p'.get_score n)
    (hrange : 0 ≤ p'.get_score n ∧ p'.get_score n ≤ 10)
    (hother : ∀ m : String, strLower m ≠ strLower n →
      p'.get_score m = p.get_score m)
    (c : Career) (hpos : ∀ it ∈ c.required_competencies, 0 < it.2.2) :
    (c.requiresName n → matchPct p c ≤ matchPct p' c) ∧
    (¬ c.requiresName n → matchPct p' c = matchPct p c) := by
  have htot : (score_career p' c).1 = (score_career p c).1 := by
    rw [score_career_fst, score_career_fst]
  constructor
  · intro hreq
    have hne : c.required_competencies ≠ [] := by
      obtain ⟨it, hit, h2⟩ := hreq
      intro hnil
      rw [hnil] at hit
      simp at hit
    have htpos : 0 < (score_career p c).1 := total_pos p c hpos hne
    have hach : (score_career p c).2.1 ≤ (score_career p' c).2.1 := by
      rw [score_career_snd, score_career_snd]
      refine List.sum_le_sum ?_
      intro it hit
      by_cases hname : strLower it.1 = strLower n
      · have e1 : p.get_score it.1 = p.get_score n := get_score_congr p _ _ hname
        have e2 : p'.get_score it.1 = p'.get_score n := get_score_congr p' _ _ hname
        rw [e1, e2]
        exact min_le_min hinc le_rfl
      · rw [hother it.1 hname]
    unfold matchPct
    rw [htot, if_pos (ne_of_gt htpos), if_pos (ne_of_gt htpos)]
    refine round2_mono ?_
    rw [div_mul_eq_mul_div, div_mul_eq_mul_div, div_le_div_iff htpos htpos]
    nlinarith [hach, htpos]
  · intro hreq
    have hach : (score_career p' c).2.1 = (score_career p c).2.1 := by
      rw [score_career_snd, score_career_snd]
      refine congrArg List.sum ?_
      refine List.map_congr_left ?_
      intro it hit
      have hname : strLower it.1 ≠ strLower n := fun hx => hreq ⟨it, hit, hx⟩
      rw [hother it.1 hname]
    unfold matchPct
    rw [htot, hach]

/-- C3 witness: raising `python` from 5 to 7 does not lower the match for a
career requiring `python`, and leaves the match for a `python`-free career
unchanged. -/
theorem C3_witness :
    matchPct profileMono careerReqPython ≤ matchPct profileMono' careerReqPython ∧
    matchPct profileMono' careerNoPython = matchPct profileMono careerNoPython := by
  have e1 : profileMono.get_score "python" = 5 := by
    simp [Profile.get_score, profileMono, lookupAL, strLower]
  have e2 : profileMono'.get_score "python" = 7 := by
    simp [Profile.get_score, profileMono', lookupAL, strLower]
  have hinc : profileMono.get_score "python" ≤ profileMono'.get_score "python" := by
    rw [e1, e2]; norm_num
  have hrange : 0 ≤ profileMono'.get_score "python" ∧
      profileMono'.get_score "python" ≤ 10 := by
    rw [e2]; norm_num
  have hother : ∀ m : String, strLower m ≠ strLower "python" →
      profileMono'.get_score m = profileMono.get_score m := by
    intro m hm
    have hm' : ¬ ("python" = strLower m) := by
      intro hx
      apply hm
      rw [← hx]
      rfl
    simp [Profile.get_score, profileMono, profileMono', lookupAL, hm']
  exact ⟨(C3_thm profileMono profileMono' "python" hinc hrange hother
            careerReqPython (by norm_num [careerReqPython])).1 (by decide),
         (C3_thm profileMono profileMono' "python" hinc hrange hother
            careerNoPython (by norm_num [careerNoPython])).2 (by decide)⟩

/-- C4 counterexample: two valid competencies share the name `skill` but have
different kinds; after adding the technical one (score 5) and then the
behavioral one (score 9), `get_score` returns 5 — the first one's score, not
the last one's. -/
theorem C4_counterexample :
    mkCompetency "skill" "tecnica" 5 = Except.ok compTecSkill ∧
    mkCompetency "skill" "comportamental" 9 = Except.ok compBehSkill ∧
    (((Profile.empty "a").add_competency compTecSkill).add_competency
        compBehSkill).get_score "skill" = compTecSkill.score ∧
    compTecSkill.score ≠ compBehSkill.score := by
  refine ⟨?_, ?_, ?_, ?_⟩
  · rfl
  · rfl
  · simp [Profile.add_competency, Profile.get_score, Profile.empty, insertAL,
      lookupAL, strLower, compTecSkill, compBehSkill]
  · norm_num [compTecSkill, compBehSkill]

/-- C4 (amended): for competencies of the same kind and the same
case-insensitive name, adding both in order leaves the score of the one
added last retrievable under any casing of the name — provided that, when
the shared kind is not `"tecnica"`, the profile's technical bucket does not
already hold the name (because `get_score` consults the technical bucket
first, a technical entry would shadow the behavioral bucket).  With
different kinds the two competencies land in different buckets and the
technical one wins regardless of order, so last-write-wins fails. -/
theorem C4_amended_thm (p : Profile) (c₁ c₂ : Competency) (q : String)
    (hkind : c₁.kind = c₂.kind)
    (hname : strLower c₁.name = strLower c₂.name)
    (hq : strLower q = strLower c₂.name)
    (hshadow : c₂.kind ≠ "tecnica" →
      lookupAL p.technical_skills (strLower c₂.name) = Option.none) :
    ((p.add_competency c₁).add_competency c₂).get_score q = c₂.score := by
  by_cases hk : c₂.kind = "tecnica"
  · have hk0 : c₁.kind = "tecnica" := hkind.trans hk
    have ht2 : ((p.add_competency c₁).add_competency c₂).technical_skills =
        insertAL (insertAL p.technical_skills (strLower c₁.name) c₁)
          (strLower c₂.name) c₂ := by
      simp [Profile.add_competency, hk0, hk]
    refine get_score_tech_hit _ q c₂ ?_
    rw [ht2, hq, lookupAL_insertAL_self]
  · have hk1 : ¬ (c₁.kind = "tecnica") := by rw [hkind]; exact hk
    have ht2 : ((p.add_competency c₁).add_competency c₂).technical_skills =
        p.technical_skills := by
      simp [Profile.add_competency, hk1, hk]
    have hb2 : ((p.add_competency c₁).add_competency c₂).behavioral_skills =
        insertAL (insertAL p.behavioral_skills (strLower c₁.name) c₁)
          (strLower c₂.name) c₂ := by
      simp [Profile.add_competency, hk1, hk]
    unfold Profile.get_score
    rw [ht2, hb2, hq, hshadow hk, lookupAL_insertAL_self]

/-- C4 witness: the amended theorem applied to two behavioral competencies
sharing the name `skill` up to case, on an empty profile; the later score 9
is returned for the query `Skill`. -/
theorem C4_amended_witness :
    (((Profile.empty "a").add_competency
        { name := "skill", kind := "comportamental", score := 3 }).add_competency
        { name := "SKILL", kind := "comportamental", score := 9 }).get_score "Skill" =
      (9 : ℚ) :=
  C4_amended_thm (Profile.empty "a")
    { name := "skill", kind := "comportamental", score := 3 }
    { name := "SKILL", kind := "comportamental", score := 9 }
    "Skill" rfl rfl rfl (fun _ => rfl)

/-- C5: `mkCompetency name kind score` succeeds exactly when the lowercased
kind is one of the two allowed kind strings and the score lies in `[0, 10]`;
for any other input it returns a validation error; and a successfully
constructed competency is precisely the value record
`(name, lowercased kind, score)` — the model offers no mutation. -/
theorem C5_thm (name kind : String) (score : ℚ) :
    ((∃ c, mkCompetency name kind score = Except.ok c) ↔
      ((strLower kind = "tecnica" ∨ strLower kind = "comportamental") ∧
        0 ≤ score ∧ score ≤ 10)) ∧
    (¬ ((strLower kind = "tecnica" ∨ strLower kind = "comportamental") ∧
        0 ≤ score ∧ score ≤ 10) →
      ∃ msg, mkCompetency name kind score = Except.error msg) ∧
    (∀ c, mkCompetency name kind score = Except.ok c →
      c.name = name ∧ c.kind = strLower kind ∧ c.score = score) := by
  unfold mkCompetency
  by_cases h1 : strLower kind = "tecnica" ∨ strLower kind = "comportamental"
  · by_cases h2 : 0 ≤ score ∧ score ≤ 10
    · rw [if_neg (not_not_intro h1), if_neg (not_not_intro h2)]
      refine ⟨?_, ?_, ?_⟩
      · exact ⟨fun _ => ⟨h1, h2⟩, fun _ => ⟨_, rfl⟩⟩
      · intro hx
        exact absurd ⟨h1, h2⟩ hx
      · intro c hc
        obtain rfl := Except.ok.inj hc
        exact ⟨rfl, rfl, rfl⟩
    · rw [if_neg (not_not_intro h1), if_pos h2]
      refine ⟨?_, ?_, ?_⟩
      · constructor
        · intro hex
          obtain ⟨c, hc⟩ := hex
          exact Except.noConfusion hc
        · intro hcond
          exact absurd ⟨hcond.2.1, hcond.2.2⟩ h2
      · intro _
        exact ⟨_, rfl⟩
      · intro c hc
        exact Except.noConfusion hc
  · rw [if_pos h1]
    refine ⟨?_, ?_, ?_⟩
    · constructor
      · intro hex
        obtain ⟨c, hc⟩ := hex
        exact Except.noConfusion hc
      · intro hcond
        exact absurd hcond.1 h1
    · intro _
      exact ⟨_, rfl⟩
    · intro c hc
      exact Except.noConfusion hc

/-- C5 witness: construction succeeds for a mixed-case valid kind and score
7.5, and fails for the kind string `x`. -/
theorem C5_witness :
    (∃ c, mkCompetency "Python" "Tecnica" (15/2) = Except.ok c) ∧
    (∃ msg, mkCompetency "Python" "x" 5 = Except.error msg) :=
  ⟨(C5_thm "Python" "Tecnica" (15/2)).1.mpr
      ⟨Or.inl (by decide), by norm_num, by norm_num⟩,
   (C5_thm "Python" "x" 5).2.1
      (by
        intro hx
        rcases hx.1 with h | h <;> exact absurd h (by decide))⟩

/-- C6: a competency name never added to a profile (built by any sequence of
`add_competency` calls on an empty profile, all added names differing from
the query up to case) reads as `0.0`; and `get_score` depends only on the
lowercased query, so an added name is found under any casing. -/
theorem C6_thm :
    (∀ (pname : String) (cs : List Competency) (q : String),
       (∀ c ∈ cs, strLower c.name ≠ strLower q) →
       ((Profile.empty pname).addAll cs).get_score q = 0) ∧
    (∀ (p : Profile) (q₁ q₂ : String), strLower q₁ = strLower q₂ →
       p.get_score q₁ = p.get_score q₂) := by
  constructor
  · intro pname cs q h
    rw [addAll_get_score_other cs (Profile.empty pname) q h]
    rfl
  · intro p q₁ q₂ h
    exact get_score_congr p q₁ q₂ h

/-- C6 witness: `sql` was never added, so it reads 0; `python` was added and
reads the same under the queries `PYTHON` and `Python`. -/
theorem C6_witness :
    ((Profile.empty "a").addAll
        [{ name := "python", kind := "tecnica", score := 5 }]).get_score "sql" = 0 ∧
    profileTen.get_score "PYTHON" = profileTen.get_score "Python" :=
  ⟨C6_thm.1 "a" [{ name := "python", kind := "tecnica", score := 5 }] "sql"
      (by decide),
   C6_thm.2 profileTen "PYTHON" "Python" (by decide)⟩

/-- C7: the kind tags of a career's requirements have no influence on
scoring — two careers whose requirement lists agree on names and required
scores (in order) receive the same `match_percentage` and the same missing
map for every profile. -/
theorem C7_thm (p : Profile) (c c' : Career)
    (h : c.required_competencies.map (fun it => (it.1, it.2.2)) =
         c'.required_competencies.map (fun it => (it.1, it.2.2))) :
    matchPct p c = matchPct p c' ∧
    (score_career p c).2.2 = (score_career p c').2.2 := by
  have key : ∀ (l l' : List (String × String × ℚ)),
      l.map (fun it => (it.1, it.2.2)) = l'.map (fun it => (it.1, it.2.2)) →
      ∀ acc, l.foldl (scoreStep p) acc = l'.foldl (scoreStep p) acc := by
    intro l
    induction l with
    | nil =>
      intro l' hl acc
      rw [List.map_nil] at hl
      rw [List.map_eq_nil.mp hl.symm]
    | cons a rest ih =>
      intro l' hl acc
      cases l' with
      | nil => simp at hl
      | cons b rest' =>
        simp only [List.map_cons, List.cons.injEq] at hl
        have ha1 : a.1 = b.1 := (Prod.mk.inj hl.1).1
        have ha2 : a.2.2 = b.2.2 := (Prod.mk.inj hl.1).2
        simp only [List.foldl_cons]
        have hstep : scoreStep p acc a = scoreStep p acc b := by
          unfold scoreStep
          rw [ha1, ha2]
        rw [hstep]
        exact ih rest' hl.2 _
  have hsc : score_career p c = score_career p c' := by
    unfold score_career Career.required_items
    exact key _ _ h _
  constructor
  · unfold matchPct
    rw [hsc]
  · rw [hsc]

/-- C7 witness: replacing the kind tag `tecnica` by `qualquer` in the single
requirement leaves match and missing untouched. -/
theorem C7_witness :
    matchPct profileTen careerKindA = matchPct profileTen careerKindB ∧
    (score_career profileTen careerKindA).2.2 =
      (score_career profileTen careerKindB).2.2 :=
  C7_thm profileTen careerKindA careerKindB (by decide)

/-- C8 counterexample: for the Marina profile against the catalog's
`Cientista de Dados` career, the computed total is 56 (not the claimed 58)
and the match percentage is 35.71 (not the claimed 34.48). -/
theorem C8_counterexample :
    (score_career marinaProfile cientistaDeDados).1 = 56 ∧ (56 : ℚ) ≠ 58 ∧
    matchPct marinaProfile cientistaDeDados = 3571/100 ∧
    (3571/100 : ℚ) ≠ 3448/100 :=
  ⟨score_career_marina_fst, by norm_num, matchPct_marina, by norm_num⟩

/-- C8 (amended): for the Marina profile against `Cientista de Dados`
(requirements as seeded by `build_default_advisor`), the total is 56, the
achieved sum is 20, and `analyze_profile` reports
`round(20/56*100, 2) = 35.71`. -/
theorem C8_amended_thm :
    (score_career marinaProfile cientistaDeDados).1 = 56 ∧
    (score_career marinaProfile cientistaDeDados).2.1 = 20 ∧
    matchPct marinaProfile cientistaDeDados = 3571/100 ∧
    (advisorC8.analyze_profile marinaProfile).map
        (fun r => (r.career.name, r.match_percentage)) =
      [("Cientista de Dados", 3571/100)] := by
  refine ⟨score_career_marina_fst, score_career_marina_snd, matchPct_marina, ?_⟩
  have hcar : advisorC8.careers = [("cientista de dados", cientistaDeDados)] := rfl
  unfold CareerAdvisor.analyze_profile CareerAdvisor.results_unsorted
  rw [hcar]
  simp only [List.map_cons, List.map_nil]
  rw [sortDesc_single]
  simp only [List.map_cons, List.map_nil, mkRecommendation]
  rw [matchPct_marina]
  rfl

/-- C9: `analyze_profile` is effect-free and history-free — threading the
registry and profile state through the career loop returns them unchanged
together with the same recommendations that the pure recomputation yields,
and the output depends on the registry only through its careers mapping. -/
theorem C9_thm :
    (∀ (adv : CareerAdvisor) (p : Profile),
       adv.analyze_profileS p = (adv, p, adv.analyze_profile p)) ∧
    (∀ (adv adv' : CareerAdvisor) (p : Profile),
       adv.careers = adv'.careers →
       adv.analyze_profile p = adv'.analyze_profile p) := by
  constructor
  · intro adv p
    unfold CareerAdvisor.analyze_profileS CareerAdvisor.analyze_profile
      CareerAdvisor.results_unsorted
    rw [foldl_analyzeStep]
    simp
  · intro adv adv' p h
    unfold CareerAdvisor.analyze_profile CareerAdvisor.results_unsorted
    rw [h]

/-- C9 witness: on the concrete registry `advisorC8`, the stateful run
returns the registry and profile unchanged, and a registry with the same
careers but different profiles mapping produces the same analysis. -/
theorem C9_witness :
    advisorC8.analyze_profileS marinaProfile =
      (advisorC8, marinaProfile, advisorC8.analyze_profile marinaProfile) ∧
    advisorC8.analyze_profile marinaProfile =
      advisorC8b.analyze_profile marinaProfile :=
  ⟨C9_thm.1 advisorC8 marinaProfile,
   C9_thm.2 advisorC8 advisorC8b marinaProfile rfl⟩

/-- C10: when a profile holds a technical and a behavioral competency under
the same lowercased name, `get_score` returns the technical one's score no
matter which of the two was added last. -/
theorem C10_thm (p : Profile) (ct cb : Competency) (q : String)
    (hkt : ct.kind = "tecnica") (hkb : cb.kind = "comportamental")
    (hnt : strLower ct.name = strLower q) (hnb : strLower cb.name = strLower q) :
    ((p.add_competency ct).add_competency cb).get_score q = ct.score ∧
    ((p.add_competency cb).add_competency ct).get_score q = ct.score := by
  have hkb' : ¬ (cb.kind = "tecnica") := by rw [hkb]; decide
  constructor
  · have ht2 : ((p.add_competency ct).add_competency cb).technical_skills =
        insertAL p.technical_skills (strLower ct.name) ct := by
      simp [Profile.add_competency, hkt, hkb']
    refine get_score_tech_hit _ q ct ?_
    rw [ht2, ← hnt, lookupAL_insertAL_self]
  · have ht3 : ((p.add_competency cb).add_competency ct).technical_skills =
        insertAL p.technical_skills (strLower ct.name) ct := by
      simp [Profile.add_competency, hkt, hkb']
    refine get_score_tech_hit _ q ct ?_
    rw [ht3, ← hnt, lookupAL_insertAL_self]

/-- C10 witness: with `skill` present in both buckets (technical score 5,
behavioral score 9), `get_score` returns 5 in both add orders. -/
theorem C10_witness :
    (((Profile.empty "a").add_competency compTecSkill).add_competency
        compBehSkill).get_score "skill" = compTecSkill.score ∧
    (((Profile.empty "a").add_competency compBehSkill).add_competency
        compTecSkill).get_score "skill" = compTecSkill.score :=
  C10_thm (Profile.empty "a") compTecSkill compBehSkill "skill" rfl rfl rfl rfl
